import Mathlib

/-!
Shallow embedding of `mmrazor/models/mutables/mutable_module/diff_mutable_module.py`.

Modelling conventions:
* Tensors are modelled by rationals (`ℚ`); candidate operations / edges are opaque
  functions `X → ℚ` where `X` is an arbitrary input type.
* Ordered dictionaries (`nn.ModuleDict`, config dicts) are association lists
  `List (String × _)`; insertion order is list order.
* Python exceptions are modelled by `Except PyErr _` (or an `Option PyErr`
  component for methods called for their state effect); the in-place mutation of
  `fix_chosen` is modelled by returning the new state next to the optional error,
  so that partially-mutated state at raise time is observable, as in Python.
* `F.softmax` is `softmaxWith ex`, exponential-normalisation with an abstract
  strictly-positive-intended exponential map `ex`; every theorem below is proved
  for all `ex`, hence in particular for the real exponential.  The stochastic
  one-hot draw of `OneHotMutableOP.sample_weights` is likewise abstracted by a
  function argument `sample`.
-/

/-- Python exception classes raised by the source file. -/
inductive PyErr where
  /-- an `assert` statement failed -/
  | assertErr
  /-- `AttributeError` raised by `fix_chosen` on an already-fixed mutable -/
  | stateErr
  /-- `TypeError` from applying `F.softmax` to `None` -/
  | typeErr
  /-- `KeyError` from a `ModuleDict` lookup of a missing key -/
  | keyErr
  /-- `AttributeError` from reading a never-assigned attribute -/
  | attrErr
  deriving DecidableEq

/-- `F.softmax(v, -1)` for a 1-D vector, with abstract exponential `ex`:
entrywise `ex a` divided by the sum of `ex` over the whole vector. -/
def softmaxWith (ex : ℚ → ℚ) (v : List ℚ) : List ℚ :=
  v.map (fun a => ex a / (v.map ex).sum)

/-- `ModuleDict` lookup `cands[c]`, as an ordered association list lookup. -/
def lookupCand {X : Type} (cands : List (String × (X → ℚ))) (c : String) :
    Option (X → ℚ) :=
  (cands.find? (fun q => q.1 == c)).map Prod.snd

/-- Run an option-valued function over a list, failing on the first `none`;
models a Python loop whose body may raise. -/
def traverseOpt {α β : Type} (f : α → Option β) : List α → Option (List β)
  | [] => some []
  | a :: l =>
    match f a, traverseOpt f l with
    | some b, some bs => some (b :: bs)
    | _, _ => none

/-- State of a `DiffMutableOP` (also reused by `OneHotMutableOP`, which only
overrides `forward_arch_param`): the ordered candidate dict, the `_is_fixed`
flag and the `_chosen` attribute (`none` = attribute never assigned). -/
structure OPState (X : Type) where
  candidates : List (String × (X → ℚ))
  is_fixed : Bool
  chosen : Option (List String)

/-- `DiffMutableOP.choices`: the list of candidate keys in insertion order. -/
def OPState.choices {X : Type} (s : OPState X) : List String :=
  s.candidates.map Prod.fst

/-- `DiffMutableOP.forward_all`: unconditional sum of every candidate's output. -/
def OPState.forward_all {X : Type} (s : OPState X) (x : X) : ℚ :=
  (s.candidates.map (fun q => q.2 x)).sum

/-- `DiffMutableOP.forward_arch_param`: with no parameter falls back to
`forward_all`; otherwise softmax probabilities are zipped against the candidate
values and every strictly-positive `prob * module(x)` is summed. -/
def OPState.forward_arch_param {X : Type} (ex : ℚ → ℚ) (s : OPState X) (x : X)
    (p : Option (List ℚ)) : ℚ :=
  match p with
  | none => s.forward_all x
  | some ap =>
    let probs := softmaxWith ex ap
    (((probs.zip (s.candidates.map Prod.snd)).filter
        (fun q => decide (0 < q.1))).map (fun q => q.1 * q.2 x)).sum

/-- `DiffMutableOP.forward_fixed`: sum of `self._candidates[choice](x)` over
`self._chosen`; reading `_chosen` before any fix raises, as does a missing key. -/
def OPState.forward_fixed {X : Type} (s : OPState X) (x : X) : Except PyErr ℚ :=
  match s.chosen with
  | none => Except.error PyErr.attrErr
  | some ch =>
    match traverseOpt (fun c => (lookupCand s.candidates c).map (fun m => m x)) ch with
    | none => Except.error PyErr.keyErr
    | some outs => Except.ok outs.sum

/-- `DiffMutableModule.forward` for a `DiffMutableOP`: dispatches on `is_fixed`. -/
def OPState.forward {X : Type} (ex : ℚ → ℚ) (s : OPState X) (x : X)
    (p : Option (List ℚ)) : Except PyErr ℚ :=
  if s.is_fixed then s.forward_fixed x
  else Except.ok (s.forward_arch_param ex x p)

/-- `OneHotMutableOP.forward_arch_param` reached through the base `forward`:
same dispatch, but the positive-probability gate uses the sampled one-hot arch
weights (the stochastic draw is the abstract argument `sample`). -/
def OPState.forwardOneHot {X : Type} (ex : ℚ → ℚ) (sample : List ℚ → List ℚ)
    (s : OPState X) (x : X) (p : Option (List ℚ)) : Except PyErr ℚ :=
  if s.is_fixed then s.forward_fixed x
  else
    match p with
    | none => Except.ok (s.forward_all x)
    | some ap =>
      let w := sample (softmaxWith ex ap)
      Except.ok ((((w.zip (s.candidates.map Prod.snd)).filter
          (fun q => decide (0 < q.1))).map (fun q => q.1 * q.2 x)).sum)

/-- The `Union[str, List[str]]` argument of `DiffMutableOP.fix_chosen`. -/
inductive StrOrList where
  | one (s : String)
  | many (l : List String)

/-- The normalisation `if isinstance(chosen, str): chosen = [chosen]`. -/
def StrOrList.toList : StrOrList → List String
  | .one s => [s]
  | .many l => l

/-- `DiffMutableOP.fix_chosen`: raises if already fixed (state untouched);
otherwise pops every candidate whose key is not in `chosen`, records `chosen`
and sets the fixed flag.  The returned pair is (state after the call, error). -/
def OPState.fix_chosen {X : Type} (s : OPState X) (chosen : StrOrList) :
    OPState X × Option PyErr :=
  if s.is_fixed then (s, some PyErr.stateErr)
  else
    let ch := chosen.toList
    ({ candidates := s.candidates.filter (fun q => decide (q.1 ∈ ch)),
       is_fixed := true, chosen := some ch }, none)

/-- State of a `DiffChoiceRoute`: the edge dict, the `with_arch_param` mode
flag, `_is_fixed`, `_chosen`, the `_unfixed_choices` snapshot (never assigned
before the first `fix_chosen`) and `num_chosen`. -/
structure RouteState (X : Type) where
  candidates : List (String × (X → ℚ))
  with_arch_param : Bool
  is_fixed : Bool
  chosen : Option (List String)
  unfixed_choices : Option (List String)
  num_chosen : Nat

/-- `DiffChoiceRoute.choices`. -/
def RouteState.choices {X : Type} (s : RouteState X) : List String :=
  s.candidates.map Prod.fst

/-- `DiffChoiceRoute.__init__` (`num_chsoen` keeps the source's spelling of the
parameter): asserts at least one edge, stores the edge dict unfixed. -/
def mkDiffChoiceRoute {X : Type} (edges : List (String × (X → ℚ)))
    (num_chsoen : Nat) (with_arch_param : Bool) : Except PyErr (RouteState X) :=
  if 1 ≤ edges.length then
    Except.ok { candidates := edges, with_arch_param := with_arch_param,
                is_fixed := false, chosen := none, unfixed_choices := none,
                num_chosen := num_chsoen }
  else Except.error PyErr.assertErr

/-- `DiffChoiceRoute.__init__` with its default arguments
(`num_chsoen = 2`, `with_arch_param = False`). -/
def mkDiffChoiceRouteDefault {X : Type} (edges : List (String × (X → ℚ))) :
    Except PyErr (RouteState X) :=
  mkDiffChoiceRoute edges 2 false

/-- `DiffChoiceRoute.forward_all`: asserts the input list matches the edge
count, then sums every edge applied to its positional input. -/
def RouteState.forward_all {X : Type} (s : RouteState X) (x : List X) :
    Except PyErr ℚ :=
  if x.length ≠ s.candidates.length then Except.error PyErr.assertErr
  else Except.ok ((((s.candidates.map Prod.snd).zip x).map
      (fun q => q.1 q.2)).sum)

/-- `DiffChoiceRoute.forward_arch_param`: asserts the length match first; in
`with_arch_param` mode computes softmax over the parameter (`None` raises a
`TypeError` inside `F.softmax`) and sums `prob * edge(input)` over the
strictly-positive probabilities; otherwise delegates to `forward_all`. -/
def RouteState.forward_arch_param {X : Type} (ex : ℚ → ℚ) (s : RouteState X)
    (x : List X) (p : Option (List ℚ)) : Except PyErr ℚ :=
  if x.length ≠ s.candidates.length then Except.error PyErr.assertErr
  else if s.with_arch_param then
    match p with
    | none => Except.error PyErr.typeErr
    | some ap =>
      let probs := softmaxWith ex ap
      Except.ok (((((probs.zip (s.candidates.map Prod.snd)).zip x).filter
          (fun q => decide (0 < q.1.1))).map (fun q => q.1.1 * q.1.2 q.2)).sum)
  else s.forward_all x

/-- `DiffChoiceRoute.forward_fixed`: asserts a choice exists, then walks
`zip(self._unfixed_choices, inputs)` keeping the pairs whose key is chosen and
sums the surviving edges applied to their positional inputs. -/
def RouteState.forward_fixed {X : Type} (s : RouteState X) (inputs : List X) :
    Except PyErr ℚ :=
  match s.chosen with
  | none => Except.error PyErr.assertErr
  | some ch =>
    match s.unfixed_choices with
    | none => Except.error PyErr.attrErr
    | some uc =>
      match traverseOpt
          (fun q => (lookupCand s.candidates q.1).map (fun m => m q.2))
          ((uc.zip inputs).filter (fun q => decide (q.1 ∈ ch))) with
      | none => Except.error PyErr.keyErr
      | some outs => Except.ok outs.sum

/-- `DiffMutableModule.forward` for a `DiffChoiceRoute`. -/
def RouteState.forward {X : Type} (ex : ℚ → ℚ) (s : RouteState X) (x : List X)
    (p : Option (List ℚ)) : Except PyErr ℚ :=
  if s.is_fixed then s.forward_fixed x
  else s.forward_arch_param ex x p

/-- `DiffChoiceRoute.fix_chosen`: overwrites `_unfixed_choices` with the
current key list first, only then checks the fixed flag (raising leaves that
overwrite in place); on success pops the unchosen edges, records `chosen` and
sets the flag. -/
def RouteState.fix_chosen {X : Type} (s : RouteState X) (chosen : List String) :
    RouteState X × Option PyErr :=
  let s1 := { s with unfixed_choices := some (s.candidates.map Prod.fst) }
  if s1.is_fixed then (s1, some PyErr.stateErr)
  else
    ({ s1 with
        candidates := s.candidates.filter (fun q => decide (q.1 ∈ chosen)),
        chosen := some chosen,
        is_fixed := true }, none)

/-- Insert index `i` into an index list ordered by strictly decreasing value of
`p`: `i` goes in front of the first index whose value is strictly smaller. -/
def insertDesc (p : List ℚ) (i : Nat) : List Nat → List Nat
  | [] => [i]
  | j :: js => if p.getD j 0 < p.getD i 0 then i :: j :: js else j :: insertDesc p i js

/-- `torch.argsort(-arch_param)`: the indices `0, …, len p - 1` sorted by
decreasing parameter value (insertion sort; tie order is irrelevant below, the
theorems about it assume pairwise-distinct values). -/
def argsortDesc (p : List ℚ) : List Nat :=
  (List.range p.length).foldl (fun acc i => insertDesc p i acc) []

/-- `DiffChoiceRoute.sample_choice`: take the first `num_chosen` indices of the
descending argsort and read off the candidate names at those indices. -/
def RouteState.sample_choice {X : Type} (s : RouteState X) (p : List ℚ) :
    List String :=
  ((argsortDesc p).take s.num_chosen).map
    (fun i => (s.candidates.map Prod.fst).getD i "")

/-- Python `dict.update`: existing keys keep their position but receive the
override value; override keys not present yet are appended in override order. -/
def dictUpdate {V : Type} (d kw : List (String × V)) : List (String × V) :=
  d.map (fun q =>
    match kw.find? (fun r => r.1 == q.1) with
    | some r => (q.1, r.2)
    | none => q)
  ++ kw.filter (fun r => !(d.any (fun q => q.1 == r.1)))

/-- Plain dict lookup used to observe `dictUpdate`. -/
def lookupV {V : Type} (d : List (String × V)) (k : String) : Option V :=
  (d.find? (fun q => q.1 == k)).map Prod.snd

/-- `DiffMutableOP._build_ops`: for each candidate config in order, assert the
name is new, merge `module_kwargs` into the config in place when supplied, and
build the op from the merged config (the opaque registry factory is the
argument `build`).  Returns the built ops together with the configs as the
caller's retained references observe them after the call. -/
def buildOps {V M : Type} (build : List (String × V) → M)
    (module_kwargs : Option (List (String × V))) :
    List (String × List (String × V)) → List String →
    Except PyErr (List (String × M) × List (String × List (String × V)))
  | [], _ => Except.ok ([], [])
  | (name, cfg) :: rest, seen =>
    if name ∈ seen then Except.error PyErr.assertErr
    else
      let cfg2 := match module_kwargs with
        | none => cfg
        | some kw => dictUpdate cfg kw
      match buildOps build module_kwargs rest (name :: seen) with
      | Except.error e => Except.error e
      | Except.ok (ops, cfgs) =>
          Except.ok ((name, build cfg2) :: ops, (name, cfg2) :: cfgs)

/-- The module applied positionally in specification sums: the `i`-th candidate
value, defaulting to the zero map out of range. -/
def applyNth {X : Type} (cands : List (String × (X → ℚ))) (i : Nat) (x : X) : ℚ :=
  ((cands.map Prod.snd).getD i (fun _ => 0)) x

/-! ### Concrete instances used by witnesses and counterexamples -/

/-- A two-candidate `DiffMutableOP` in search mode. -/
def exOP : OPState ℚ :=
  ⟨[("p", fun a => a), ("q", fun a => a + 1)], false, none⟩

/-- A two-edge `DiffChoiceRoute` in non-differentiable mode. -/
def exRouteF : RouteState ℚ :=
  ⟨[("a", fun a => a), ("b", fun a => a + 1)], false, false, none, none, 2⟩

/-- A one-edge `DiffChoiceRoute` in differentiable (`with_arch_param`) mode. -/
def exRouteT : RouteState ℚ :=
  ⟨[("e", fun a => a)], true, false, none, none, 2⟩

/-- A three-edge `DiffChoiceRoute` with `num_chosen = 2`. -/
def exRoute3 : RouteState ℚ :=
  ⟨[("a", fun a => a), ("b", fun a => 2 * a), ("c", fun a => a + 3)],
   false, false, none, none, 2⟩

/-- `exRouteF` after one successful `fix_chosen(["b"])`. -/
def exRouteFixed : RouteState ℚ := (exRouteF.fix_chosen ["b"]).1

/-- `exOP` after one successful `fix_chosen("p")`. -/
def exOPFixed : OPState ℚ := (exOP.fix_chosen (StrOrList.one "p")).1

/-! ### C1: `forward` with no architecture parameter -/

/-- Claim C1 as stated is false: for an unfixed `DiffChoiceRoute` constructed
with `with_arch_param=True`, `forward(x)` with no architecture parameter does
not return `forward_all(x)`; it raises (a `TypeError` inside
`F.softmax(None)`). -/
theorem C1_counterexample :
    RouteState.forward (fun a => a) exRouteT [(2 : ℚ)] none
      ≠ exRouteT.forward_all [(2 : ℚ)] := by
  have h1 : RouteState.forward (fun a => a) exRouteT [(2 : ℚ)] none
      = Except.error PyErr.typeErr := rfl
  have h2 : ∃ y, exRouteT.forward_all [(2 : ℚ)] = Except.ok y := ⟨_, rfl⟩
  obtain ⟨y, h2⟩ := h2
  rw [h1, h2]
  exact fun hcontra => Except.noConfusion hcontra

/-- Claim C1 (amended): for every unfixed `DiffMutableOP` or `OneHotMutableOP`,
and for every unfixed `DiffChoiceRoute` in non-differentiable mode
(`with_arch_param=False`), calling `forward` with no architecture parameter
returns the same result as `forward_all` on the same input; an unfixed
`DiffChoiceRoute` in differentiable mode (`with_arch_param=True`) instead
fails with a type error when the input length matches the edge count. -/
theorem C1_amended {X : Type} (ex : ℚ → ℚ) :
    (∀ (s : OPState X) (x : X), s.is_fixed = false →
      OPState.forward ex s x none = Except.ok (s.forward_all x))
    ∧ (∀ (s : OPState X) (sample : List ℚ → List ℚ) (x : X), s.is_fixed = false →
      OPState.forwardOneHot ex sample s x none = Except.ok (s.forward_all x))
    ∧ (∀ (s : RouteState X) (x : List X), s.is_fixed = false →
      s.with_arch_param = false →
      RouteState.forward ex s x none = s.forward_all x)
    ∧ (∀ (s : RouteState X) (x : List X), s.is_fixed = false →
      s.with_arch_param = true → x.length = s.candidates.length →
      RouteState.forward ex s x none = Except.error PyErr.typeErr) := by
  refine ⟨?_, ?_, ?_, ?_⟩
  · intro s x h
    simp [OPState.forward, h, OPState.forward_arch_param]
  · intro s sample x h
    simp [OPState.forwardOneHot, h]
  · intro s x h hw
    by_cases hl : x.length = s.candidates.length <;>
      simp [RouteState.forward, RouteState.forward_arch_param,
        RouteState.forward_all, h, hw, hl]
  · intro s x h hw hl
    simp [RouteState.forward, RouteState.forward_arch_param, h, hw, hl]

/-- Witness for C1 (amended) at concrete instances. -/
theorem C1_amended_witness :
    exOP.is_fixed = false ∧ exRouteF.is_fixed = false ∧ exRouteT.is_fixed = false
    ∧ exRouteT.with_arch_param = true
    ∧ OPState.forward (fun a => a) exOP 3 none = Except.ok (exOP.forward_all 3)
    ∧ OPState.forwardOneHot (fun a => a) (fun l => l) exOP 3 none
        = Except.ok (exOP.forward_all 3)
    ∧ RouteState.forward (fun a => a) exRouteF [1, 2] none
        = exRouteF.forward_all [1, 2]
    ∧ RouteState.forward (fun a => a) exRouteT [5] none
        = Except.error PyErr.typeErr := by
  refine ⟨rfl, rfl, rfl, rfl, ?_, ?_, ?_, ?_⟩
  · exact (C1_amended (fun a => a)).1 exOP 3 rfl
  · exact (C1_amended (fun a => a)).2.1 exOP (fun l => l) 3 rfl
  · exact (C1_amended (fun a => a)).2.2.1 exRouteF [1, 2] rfl rfl
  · exact (C1_amended (fun a => a)).2.2.2 exRouteT [5] rfl rfl rfl

/-! ### C2: a second `fix_chosen` call -/

/-- Claim C2 as stated is false: on an already-fixed `DiffChoiceRoute` the
second `fix_chosen` call does raise the state error, but it has already
overwritten the `_unfixed_choices` ordering snapshot (used by `forward_fixed`)
with the post-fix candidate list before raising. -/
theorem C2_counterexample :
    (exRouteFixed.fix_chosen ["b"]).2 = some PyErr.stateErr
    ∧ (exRouteFixed.fix_chosen ["b"]).1.unfixed_choices
        ≠ exRouteFixed.unfixed_choices := by
  refine ⟨rfl, ?_⟩
  have h1 : (exRouteFixed.fix_chosen ["b"]).1.unfixed_choices = some ["b"] := rfl
  have h2 : exRouteFixed.unfixed_choices = some ["a", "b"] := rfl
  rw [h1, h2]
  simp

/-- Claim C2 (amended): a second `fix_chosen` on an already-fixed mutable fails
with a state error; for `DiffMutableOP` the whole state is exactly as before
the call, while for `DiffChoiceRoute` the candidate set, chosen set and fixed
flag are unchanged but the `_unfixed_choices` ordering snapshot has been
overwritten with the current (post-fix) candidate key list. -/
theorem C2_amended {X : Type} :
    (∀ (s : OPState X) (ch : StrOrList), s.is_fixed = true →
      s.fix_chosen ch = (s, some PyErr.stateErr))
    ∧ (∀ (s : RouteState X) (ch : List String), s.is_fixed = true →
      (s.fix_chosen ch).2 = some PyErr.stateErr
      ∧ (s.fix_chosen ch).1.candidates = s.candidates
      ∧ (s.fix_chosen ch).1.chosen = s.chosen
      ∧ (s.fix_chosen ch).1.is_fixed = s.is_fixed
      ∧ (s.fix_chosen ch).1.with_arch_param = s.with_arch_param
      ∧ (s.fix_chosen ch).1.num_chosen = s.num_chosen
      ∧ (s.fix_chosen ch).1.unfixed_choices
          = some (s.candidates.map Prod.fst)) := by
  constructor
  · intro s ch h
    simp [OPState.fix_chosen, h]
  · intro s ch h
    simp [RouteState.fix_chosen, h]

/-- Witness for C2 (amended) at concrete fixed instances. -/
theorem C2_amended_witness :
    exOPFixed.is_fixed = true ∧ exRouteFixed.is_fixed = true
    ∧ exOPFixed.fix_chosen (StrOrList.one "p") = (exOPFixed, some PyErr.stateErr)
    ∧ ((exRouteFixed.fix_chosen ["b"]).2 = some PyErr.stateErr
       ∧ (exRouteFixed.fix_chosen ["b"]).1.candidates = exRouteFixed.candidates
       ∧ (exRouteFixed.fix_chosen ["b"]).1.chosen = exRouteFixed.chosen
       ∧ (exRouteFixed.fix_chosen ["b"]).1.is_fixed = exRouteFixed.is_fixed
       ∧ (exRouteFixed.fix_chosen ["b"]).1.with_arch_param
           = exRouteFixed.with_arch_param
       ∧ (exRouteFixed.fix_chosen ["b"]).1.num_chosen = exRouteFixed.num_chosen
       ∧ (exRouteFixed.fix_chosen ["b"]).1.unfixed_choices
           = some (exRouteFixed.candidates.map Prod.fst)) :=
  ⟨rfl, rfl, C2_amended.1 exOPFixed (StrOrList.one "p") rfl,
   C2_amended.2 exRouteFixed ["b"] rfl⟩

/-! ### C8: length-mismatch failure in `DiffChoiceRoute` forwards -/

/-- Claim C8: when the input list length differs from the edge count, both
`forward_arch_param` and `forward_all` fail with the assertion error, and the
result does not depend on the edge modules at all (any state with the same
edge count and mode gives the same result), i.e. no edge is invoked. -/
theorem C8_length_mismatch_fails {X : Type} (ex : ℚ → ℚ) (s : RouteState X)
    (x : List X) (p : Option (List ℚ))
    (hlen : x.length ≠ s.candidates.length) :
    s.forward_arch_param ex x p = Except.error PyErr.assertErr
    ∧ s.forward_all x = Except.error PyErr.assertErr
    ∧ (∀ s' : RouteState X, s'.candidates.length = s.candidates.length →
        s'.forward_arch_param ex x p = s.forward_arch_param ex x p
        ∧ s'.forward_all x = s.forward_all x) := by
  refine ⟨?_, ?_, ?_⟩
  · simp [RouteState.forward_arch_param, hlen]
  · simp [RouteState.forward_all, hlen]
  · intro s' hl
    have hlen' : x.length ≠ s'.candidates.length := by rw [hl]; exact hlen
    constructor
    · simp [RouteState.forward_arch_param, hlen, hlen']
    · simp [RouteState.forward_all, hlen, hlen']

/-- Witness for C8: two inputs against a three-edge route. -/
theorem C8_witness :
    (2 : Nat) ≠ exRoute3.candidates.length
    ∧ RouteState.forward_arch_param (fun a => a) exRoute3 [1, 2] none
        = Except.error PyErr.assertErr
    ∧ exRoute3.forward_all [(1 : ℚ), 2] = Except.error PyErr.assertErr := by
  have h := C8_length_mismatch_fails (fun a => a) exRoute3 [(1 : ℚ), 2] none
    (by decide)
  exact ⟨by decide, h.1, h.2.1⟩

/-! ### C4: state after one successful `fix_chosen` -/

lemma filter_map_fst {X : Type} (cands : List (String × (X → ℚ)))
    (ch : List String) :
    (cands.filter (fun q => decide (q.1 ∈ ch))).map Prod.fst
      = (cands.map Prod.fst).filter (fun k => decide (k ∈ ch)) := by
  induction cands with
  | nil => simp
  | cons a l ih =>
    by_cases h : a.1 ∈ ch <;> simp [List.filter_cons, h, ih]

lemma filter_mem_length (keys chL : List String) (hnd : keys.Nodup)
    (hsub : ∀ c ∈ chL, c ∈ keys) :
    (keys.filter (fun k => decide (k ∈ chL))).length = chL.dedup.length := by
  have h1 : (keys.filter (fun k => decide (k ∈ chL))).Nodup := hnd.filter _
  have h2 : chL.dedup.Nodup := List.nodup_dedup chL
  have hmem : ∀ a, (a ∈ keys.filter (fun k => decide (k ∈ chL)))
      ↔ a ∈ chL.dedup := by
    intro a
    simp only [List.mem_filter, decide_eq_true_eq, List.mem_dedup]
    exact ⟨fun h => h.2, fun h => ⟨hsub a h, h⟩⟩
  exact ((List.perm_ext_iff_of_nodup h1 h2).mpr hmem).length_eq

/-- Claim C4: after one `fix_chosen` on an unfixed mutable whose chosen names
all exist among the candidates, no error is raised, the surviving keys are a
sublist of the original keys (original insertion order preserved), the
surviving keys are exactly the candidate keys belonging to the chosen set, the
candidate-set size equals the chosen-set size (number of distinct chosen
names), and the mutable is fixed.  Stated for `DiffMutableOP` (hence also
`OneHotMutableOP`, which inherits `fix_chosen`) and for `DiffChoiceRoute`. -/
theorem C4_fix_chosen_invariants {X : Type} :
    (∀ (s : OPState X) (chosen : StrOrList),
      s.is_fixed = false →
      (s.candidates.map Prod.fst).Nodup →
      (∀ c ∈ chosen.toList, c ∈ s.candidates.map Prod.fst) →
      (s.fix_chosen chosen).2 = none
      ∧ ((s.fix_chosen chosen).1.candidates.map Prod.fst).Sublist
          (s.candidates.map Prod.fst)
      ∧ (∀ k, k ∈ (s.fix_chosen chosen).1.candidates.map Prod.fst ↔
          (k ∈ s.candidates.map Prod.fst ∧ k ∈ chosen.toList))
      ∧ (s.fix_chosen chosen).1.candidates.length = chosen.toList.dedup.length
      ∧ (s.fix_chosen chosen).1.is_fixed = true)
    ∧ (∀ (s : RouteState X) (chosen : List String),
      s.is_fixed = false →
      (s.candidates.map Prod.fst).Nodup →
      (∀ c ∈ chosen, c ∈ s.candidates.map Prod.fst) →
      (s.fix_chosen chosen).2 = none
      ∧ ((s.fix_chosen chosen).1.candidates.map Prod.fst).Sublist
          (s.candidates.map Prod.fst)
      ∧ (∀ k, k ∈ (s.fix_chosen chosen).1.candidates.map Prod.fst ↔
          (k ∈ s.candidates.map Prod.fst ∧ k ∈ chosen))
      ∧ (s.fix_chosen chosen).1.candidates.length = chosen.dedup.length
      ∧ (s.fix_chosen chosen).1.is_fixed = true) := by
  constructor
  · intro s chosen hfix hnd hsub
    have hfc1 : (s.fix_chosen chosen).1.candidates
        = s.candidates.filter (fun q => decide (q.1 ∈ chosen.toList)) := by
      simp [OPState.fix_chosen, hfix]
    have hfc2 : (s.fix_chosen chosen).2 = none := by
      simp [OPState.fix_chosen, hfix]
    have hfc3 : (s.fix_chosen chosen).1.is_fixed = true := by
      simp [OPState.fix_chosen, hfix]
    refine ⟨hfc2, ?_, ?_, ?_, hfc3⟩
    · rw [hfc1, filter_map_fst]
      exact List.filter_sublist _
    · intro k
      rw [hfc1, filter_map_fst]
      simp [List.mem_filter]
    · rw [hfc1]
      calc (s.candidates.filter (fun q => decide (q.1 ∈ chosen.toList))).length
          = ((s.candidates.filter
              (fun q => decide (q.1 ∈ chosen.toList))).map Prod.fst).length :=
            (List.length_map _ _).symm
        _ = ((s.candidates.map Prod.fst).filter
              (fun k => decide (k ∈ chosen.toList))).length := by
            rw [filter_map_fst]
        _ = chosen.toList.dedup.length := filter_mem_length _ _ hnd hsub
  · intro s chosen hfix hnd hsub
    have hfc1 : (s.fix_chosen chosen).1.candidates
        = s.candidates.filter (fun q => decide (q.1 ∈ chosen)) := by
      simp [RouteState.fix_chosen, hfix]
    have hfc2 : (s.fix_chosen chosen).2 = none := by
      simp [RouteState.fix_chosen, hfix]
    have hfc3 : (s.fix_chosen chosen).1.is_fixed = true := by
      simp [RouteState.fix_chosen, hfix]
    refine ⟨hfc2, ?_, ?_, ?_, hfc3⟩
    · rw [hfc1, filter_map_fst]
      exact List.filter_sublist _
    · intro k
      rw [hfc1, filter_map_fst]
      simp [List.mem_filter]
    · rw [hfc1]
      calc (s.candidates.filter (fun q => decide (q.1 ∈ chosen))).length
          = ((s.candidates.filter
              (fun q => decide (q.1 ∈ chosen))).map Prod.fst).length :=
            (List.length_map _ _).symm
        _ = ((s.candidates.map Prod.fst).filter
              (fun k => decide (k ∈ chosen))).length := by
            rw [filter_map_fst]
        _ = chosen.dedup.length := filter_mem_length _ _ hnd hsub

/-- Witness for C4: fixing `exOP` to `["q"]` and `exRouteF` to `["b"]`. -/
theorem C4_witness :
    (exOP.is_fixed = false ∧ (exOP.candidates.map Prod.fst).Nodup
      ∧ (∀ c ∈ (StrOrList.many ["q"]).toList, c ∈ exOP.candidates.map Prod.fst))
    ∧ ((exOP.fix_chosen (StrOrList.many ["q"])).2 = none
      ∧ ((exOP.fix_chosen (StrOrList.many ["q"])).1.candidates.map
          Prod.fst).Sublist (exOP.candidates.map Prod.fst)
      ∧ (∀ k, k ∈ (exOP.fix_chosen (StrOrList.many ["q"])).1.candidates.map
            Prod.fst ↔
          (k ∈ exOP.candidates.map Prod.fst ∧ k ∈ (StrOrList.many ["q"]).toList))
      ∧ (exOP.fix_chosen (StrOrList.many ["q"])).1.candidates.length
          = (StrOrList.many ["q"]).toList.dedup.length
      ∧ (exOP.fix_chosen (StrOrList.many ["q"])).1.is_fixed = true)
    ∧ ((exRouteF.fix_chosen ["b"]).2 = none
      ∧ ((exRouteF.fix_chosen ["b"]).1.candidates.map Prod.fst).Sublist
          (exRouteF.candidates.map Prod.fst)
      ∧ (∀ k, k ∈ (exRouteF.fix_chosen ["b"]).1.candidates.map Prod.fst ↔
          (k ∈ exRouteF.candidates.map Prod.fst ∧ k ∈ ["b"]))
      ∧ (exRouteF.fix_chosen ["b"]).1.candidates.length = ["b"].dedup.length
      ∧ (exRouteF.fix_chosen ["b"]).1.is_fixed = true) :=
  ⟨⟨rfl, by decide, by decide⟩,
   C4_fix_chosen_invariants.1 exOP (StrOrList.many ["q"]) rfl (by decide)
     (by decide),
   C4_fix_chosen_invariants.2 exRouteF ["b"] rfl (by decide) (by decide)⟩

/-! ### C6: post-fix forward of `DiffMutableOP` ignores the parameter -/

lemma find?_filter_of_imp {α : Type} (l : List α) (p q : α → Bool)
    (h : ∀ a, p a = true → q a = true) :
    (l.filter q).find? p = l.find? p := by
  induction l with
  | nil => simp
  | cons a l ih =>
    by_cases hp : p a = true
    · have hq := h a hp
      simp [List.filter_cons, hq, List.find?_cons_of_pos, hp]
    · by_cases hq : q a = true <;>
        simp [List.filter_cons, hq, List.find?_cons_of_neg, hp, ih]

lemma lookupCand_filter {X : Type} (cands : List (String × (X → ℚ)))
    (chL : List String) (c : String) (hc : c ∈ chL) :
    lookupCand (cands.filter (fun q => decide (q.1 ∈ chL))) c
      = lookupCand cands c := by
  unfold lookupCand
  rw [find?_filter_of_imp]
  intro a ha
  have ha' : a.1 = c := by simpa using ha
  simp [ha', hc]

lemma traverseOpt_eq_map {α β : Type} (f : α → Option β) (g : α → β) :
    ∀ l : List α, (∀ a ∈ l, f a = some (g a)) →
      traverseOpt f l = some (l.map g) := by
  intro l
  induction l with
  | nil => intro _; rfl
  | cons a l ih =>
    intro h
    have ha := h a (by simp)
    have hl := ih (fun b hb => h b (by simp [hb]))
    simp [traverseOpt, ha, hl]

lemma lookupCand_isSome_of_mem {X : Type} (cands : List (String × (X → ℚ)))
    (c : String) (h : c ∈ cands.map Prod.fst) :
    ∃ m, lookupCand cands c = some m := by
  induction cands with
  | nil => simp at h
  | cons a l ih =>
    by_cases hc : a.1 = c
    · exact ⟨a.2, by simp [lookupCand, List.find?_cons_of_pos, hc]⟩
    · have hmem : c = a.1 ∨ ∃ y, (c, y) ∈ l := by simpa using h
      have h' : c ∈ l.map Prod.fst := by
        rcases hmem with h1 | ⟨y, hy⟩
        · exact absurd h1.symm hc
        · exact List.mem_map.mpr ⟨(c, y), hy, rfl⟩
      obtain ⟨m, hm⟩ := ih h'
      refine ⟨m, ?_⟩
      have hne : (a.1 == c) = false := by simp [hc]
      simpa [lookupCand, List.find?_cons_of_neg, hne] using hm

/-- Claim C6: once a `DiffMutableOP` has been fixed with a chosen set (every
chosen name being a candidate key), `forward` — with any architecture
parameter, or none — returns the unweighted sum of exactly the chosen
candidates' outputs on the input; the parameter has no influence. -/
theorem C6_fixed_forward_ignores_param {X : Type} (ex : ℚ → ℚ) (s : OPState X)
    (chosen : StrOrList) (x : X)
    (hfix : s.is_fixed = false)
    (hmem : ∀ c ∈ chosen.toList, c ∈ s.candidates.map Prod.fst) :
    ∀ p : Option (List ℚ),
      OPState.forward ex ((s.fix_chosen chosen).1) x p
        = Except.ok ((chosen.toList.map
            (fun c => ((lookupCand s.candidates c).getD (fun _ => 0)) x)).sum) := by
  intro p
  have h1 : (s.fix_chosen chosen).1
      = ⟨s.candidates.filter (fun q => decide (q.1 ∈ chosen.toList)),
         true, some chosen.toList⟩ := by
    simp [OPState.fix_chosen, hfix]
  rw [h1]
  have key : traverseOpt
      (fun c => (lookupCand
          (s.candidates.filter (fun q => decide (q.1 ∈ chosen.toList))) c).map
        (fun m => m x)) chosen.toList
      = some (chosen.toList.map
          (fun c => ((lookupCand s.candidates c).getD (fun _ => 0)) x)) := by
    apply traverseOpt_eq_map
    intro c hc
    obtain ⟨m, hm⟩ := lookupCand_isSome_of_mem s.candidates c (hmem c hc)
    rw [lookupCand_filter _ _ _ hc, hm]
    simp
  simp [OPState.forward, OPState.forward_fixed, key]

/-- Witness for C6: `exOP` fixed to `"q"`, probed with two different
parameters and with none. -/
theorem C6_witness :
    exOP.is_fixed = false
    ∧ (∀ c ∈ (StrOrList.one "q").toList, c ∈ exOP.candidates.map Prod.fst)
    ∧ OPState.forward (fun a => a) ((exOP.fix_chosen (StrOrList.one "q")).1) 3
        (some [5])
        = Except.ok (((StrOrList.one "q").toList.map
            (fun c => ((lookupCand exOP.candidates c).getD (fun _ => 0)) 3)).sum)
    ∧ OPState.forward (fun a => a) ((exOP.fix_chosen (StrOrList.one "q")).1) 3
        none
        = Except.ok (((StrOrList.one "q").toList.map
            (fun c => ((lookupCand exOP.candidates c).getD (fun _ => 0)) 3)).sum) :=
  ⟨rfl, by decide,
   C6_fixed_forward_ignores_param (fun a => a) exOP (StrOrList.one "q") 3 rfl
     (by decide) (some [5]),
   C6_fixed_forward_ignores_param (fun a => a) exOP (StrOrList.one "q") 3 rfl
     (by decide) none⟩

/-! ### C5 and C9: the weighted sum computed by `forward_arch_param` -/

lemma zipFilterSum {X : Type} (x : X) :
    ∀ (ps : List ℚ) (ms : List (X → ℚ)),
    (((ps.zip ms).filter (fun q => decide (0 < q.1))).map
        (fun q => q.1 * q.2 x)).sum
      = ∑ i ∈ Finset.range (min ps.length ms.length),
          (if 0 < ps.getD i 0 then ps.getD i 0 * (ms.getD i (fun _ => 0)) x
           else 0) := by
  intro ps
  induction ps with
  | nil => intro ms; simp
  | cons p ps ih =>
    intro ms
    cases ms with
    | nil => simp
    | cons m ms =>
      have hlen2 : min (p :: ps).length (m :: ms).length
          = min ps.length ms.length + 1 := by
        simp [Nat.succ_min_succ]
      rw [List.zip_cons_cons, hlen2, Finset.sum_range_succ']
      by_cases h : 0 < p
      · rw [List.filter_cons_of_pos (by simpa using h)]
        simp only [List.map_cons, List.sum_cons]
        rw [ih ms]
        simp only [List.getD_cons_succ, List.getD_cons_zero]
        rw [if_pos h]
        exact add_comm _ _
      · rw [List.filter_cons_of_neg (by simpa using h)]
        rw [ih ms]
        simp only [List.getD_cons_succ, List.getD_cons_zero]
        rw [if_neg h, add_zero]

/-- Claim C5: an unfixed `DiffMutableOP` with K candidates, given a parameter
of length K, forwards (without error) to the sum, over exactly the indices
with strictly positive probability, of `prob_i * candidate_i(x)`, where the
probabilities are the softmax of the parameter aligned with candidate
insertion order. -/
theorem C5_softmax_weighted_sum {X : Type} (ex : ℚ → ℚ) (s : OPState X) (x : X)
    (p : List ℚ) (hfix : s.is_fixed = false)
    (hlen : p.length = s.candidates.length) :
    OPState.forward ex s x (some p)
      = Except.ok (s.forward_arch_param ex x (some p))
    ∧ s.forward_arch_param ex x (some p)
      = ∑ i ∈ Finset.range s.candidates.length,
          (if 0 < (softmaxWith ex p).getD i 0 then
            (softmaxWith ex p).getD i 0 * applyNth s.candidates i x
          else 0) := by
  constructor
  · simp [OPState.forward, hfix]
  · show ((((softmaxWith ex p).zip (s.candidates.map Prod.snd)).filter
        (fun q => decide (0 < q.1))).map (fun q => q.1 * q.2 x)).sum = _
    rw [zipFilterSum x]
    have h1 : (softmaxWith ex p).length = p.length := List.length_map _ _
    rw [h1, List.length_map, hlen, Nat.min_self]
    simp only [applyNth]

/-- Witness for C5 at `exOP` with parameter `[1, 2]`. -/
theorem C5_witness :
    exOP.is_fixed = false ∧ [(1 : ℚ), 2].length = exOP.candidates.length
    ∧ (OPState.forward (fun a => a) exOP 3 (some [1, 2])
        = Except.ok (exOP.forward_arch_param (fun a => a) 3 (some [1, 2]))
      ∧ exOP.forward_arch_param (fun a => a) 3 (some [1, 2])
        = ∑ i ∈ Finset.range exOP.candidates.length,
            (if 0 < (softmaxWith (fun a => a) [1, 2]).getD i 0 then
              (softmaxWith (fun a => a) [1, 2]).getD i 0 * applyNth exOP.candidates i 3
            else 0)) :=
  ⟨rfl, by decide,
   C5_softmax_weighted_sum (fun a => a) exOP 3 [1, 2] rfl (by decide)⟩

/-- Claim C9: an unfixed `DiffMutableOP` given a parameter shorter than the
candidate list raises no length error: `forward_arch_param` silently returns
the weighted sum over only the first `len p` candidates in insertion order
(trailing candidates dropped by `zip` truncation); parameter length is never
validated against the candidate count. -/
theorem C9_short_param_truncates {X : Type} (ex : ℚ → ℚ) (s : OPState X)
    (x : X) (p : List ℚ) (hfix : s.is_fixed = false)
    (hlen : p.length < s.candidates.length) :
    OPState.forward ex s x (some p)
      = Except.ok (s.forward_arch_param ex x (some p))
    ∧ s.forward_arch_param ex x (some p)
      = ∑ i ∈ Finset.range p.length,
          (if 0 < (softmaxWith ex p).getD i 0 then
            (softmaxWith ex p).getD i 0 * applyNth s.candidates i x
          else 0) := by
  constructor
  · simp [OPState.forward, hfix]
  · show ((((softmaxWith ex p).zip (s.candidates.map Prod.snd)).filter
        (fun q => decide (0 < q.1))).map (fun q => q.1 * q.2 x)).sum = _
    rw [zipFilterSum x]
    have h1 : (softmaxWith ex p).length = p.length := List.length_map _ _
    rw [h1, List.length_map, Nat.min_eq_left (Nat.le_of_lt hlen)]
    simp only [applyNth]

/-- Witness for C9 at `exOP` (two candidates) with the length-1 parameter
`[1]`: no error, and only the first candidate contributes. -/
theorem C9_witness :
    exOP.is_fixed = false ∧ [(1 : ℚ)].length < exOP.candidates.length
    ∧ (OPState.forward (fun a => a) exOP 3 (some [1])
        = Except.ok (exOP.forward_arch_param (fun a => a) 3 (some [1]))
      ∧ exOP.forward_arch_param (fun a => a) 3 (some [1])
        = ∑ i ∈ Finset.range [(1 : ℚ)].length,
            (if 0 < (softmaxWith (fun a => a) [1]).getD i 0 then
              (softmaxWith (fun a => a) [1]).getD i 0 * applyNth exOP.candidates i 3
            else 0)) :=
  ⟨rfl, by decide,
   C9_short_param_truncates (fun a => a) exOP 3 [1] rfl (by decide)⟩

/-! ### C3: `DiffChoiceRoute.forward_fixed` after one fix -/

lemma traverseOpt_congr {α β : Type} (f g : α → Option β) :
    ∀ l : List α, (∀ a ∈ l, f a = g a) → traverseOpt f l = traverseOpt g l := by
  intro l
  induction l with
  | nil => intro _; rfl
  | cons a l ih =>
    intro h
    simp only [traverseOpt]
    rw [h a (List.mem_cons_self a l), ih (fun b hb => h b (List.mem_cons_of_mem a hb))]

lemma applyNth_cons_succ {X : Type} (a : String × (X → ℚ))
    (l : List (String × (X → ℚ))) (i : Nat) (y : X) :
    applyNth (a :: l) (i + 1) y = applyNth l i y := by
  simp [applyNth]

lemma applyNth_cons_zero {X : Type} (a : String × (X → ℚ))
    (l : List (String × (X → ℚ))) (y : X) :
    applyNth (a :: l) 0 y = a.2 y := by
  simp [applyNth]

lemma routeFixedSum {X : Type} [Inhabited X] (ch : List String) :
    ∀ (cands : List (String × (X → ℚ))) (ins : List X),
      (cands.map Prod.fst).Nodup →
      (traverseOpt (fun q => (lookupCand cands q.1).map (fun m => m q.2))
          (((cands.map Prod.fst).zip ins).filter
            (fun q => decide (q.1 ∈ ch)))).map List.sum
      = some (∑ i ∈ Finset.range (min cands.length ins.length),
          if (cands.map Prod.fst).getD i "" ∈ ch then
            applyNth cands i (ins.getD i default)
          else 0) := by
  intro cands
  induction cands with
  | nil => intro ins _; simp [traverseOpt]
  | cons a l ih =>
    intro ins hnd
    cases ins with
    | nil => simp [traverseOpt]
    | cons x xs =>
      obtain ⟨hna, hndl⟩ : a.1 ∉ l.map Prod.fst ∧ (l.map Prod.fst).Nodup := by
        simpa [List.nodup_cons] using hnd
      have hcongr : ∀ q ∈ ((l.map Prod.fst).zip xs).filter
          (fun q => decide (q.1 ∈ ch)),
          (lookupCand (a :: l) q.1).map (fun m => m q.2)
            = (lookupCand l q.1).map (fun m => m q.2) := by
        intro q hq
        have hq1 : q.1 ∈ l.map Prod.fst :=
          (List.of_mem_zip (List.mem_of_mem_filter hq)).1
        have hne : (a.1 == q.1) = false := by
          have hne' : a.1 ≠ q.1 := fun hcontra => hna (hcontra ▸ hq1)
          simp [hne']
        simp [lookupCand, List.find?_cons_of_neg, hne]
      have hmin : min (a :: l).length (x :: xs).length
          = min l.length xs.length + 1 := by
        simp [Nat.succ_min_succ]
      rw [List.map_cons, List.zip_cons_cons, hmin, Finset.sum_range_succ']
      have ihx := ih xs hndl
      cases hopt : traverseOpt (fun q => (lookupCand l q.1).map (fun m => m q.2))
          (((l.map Prod.fst).zip xs).filter (fun q => decide (q.1 ∈ ch))) with
      | none => rw [hopt] at ihx; simp at ihx
      | some outs =>
        rw [hopt] at ihx
        have hsum : outs.sum = ∑ i ∈ Finset.range (min l.length xs.length),
            (if (l.map Prod.fst).getD i "" ∈ ch then
              applyNth l i (xs.getD i default) else 0) := by
          simpa using ihx
        by_cases hch : a.1 ∈ ch
        · rw [List.filter_cons_of_pos (by simpa using hch)]
          have hhead : (lookupCand (a :: l) a.1).map
              (fun m => m ((a.1, x).2)) = some (a.2 x) := by
            simp [lookupCand, List.find?_cons_of_pos]
          simp only [traverseOpt]
          rw [traverseOpt_congr _ _ _ hcongr, hopt, hhead]
          simp only [Option.map_some', List.sum_cons,
            List.getD_cons_succ, List.getD_cons_zero,
            applyNth_cons_succ, applyNth_cons_zero]
          rw [if_pos hch, hsum, add_comm]
        · rw [List.filter_cons_of_neg (by simpa using hch)]
          rw [traverseOpt_congr _ _ _ hcongr, hopt]
          simp only [Option.map_some', List.getD_cons_succ, List.getD_cons_zero,
            applyNth_cons_succ, applyNth_cons_zero]
          rw [if_neg hch, add_zero, hsum]

/-- Claim C3: a `DiffChoiceRoute` fixed exactly once with a chosen subset of
its candidate names, applied via `forward_fixed` to an input list positionally
aligned with the pre-fix candidate ordering, returns the sum over exactly the
chosen positions of that edge applied to the input at the edge's pre-fix
position. -/
theorem C3_forward_fixed_positional_sum {X : Type} [Inhabited X]
    (s : RouteState X) (chosen : List String) (inputs : List X)
    (hfix : s.is_fixed = false)
    (hnd : (s.candidates.map Prod.fst).Nodup)
    (_hsub : ∀ c ∈ chosen, c ∈ s.candidates.map Prod.fst)
    (hlen : inputs.length = s.candidates.length) :
    ((s.fix_chosen chosen).1).forward_fixed inputs
      = Except.ok (∑ i ∈ Finset.range s.candidates.length,
          if (s.candidates.map Prod.fst).getD i "" ∈ chosen then
            applyNth s.candidates i (inputs.getD i default)
          else 0) := by
  have h1 : (s.fix_chosen chosen).1
      = { s with
          candidates := s.candidates.filter (fun q => decide (q.1 ∈ chosen)),
          chosen := some chosen,
          is_fixed := true,
          unfixed_choices := some (s.candidates.map Prod.fst) } := by
    simp [RouteState.fix_chosen, hfix]
  rw [h1]
  simp only [RouteState.forward_fixed]
  have hcongr : ∀ q ∈ ((s.candidates.map Prod.fst).zip inputs).filter
      (fun q => decide (q.1 ∈ chosen)),
      (lookupCand (s.candidates.filter (fun r => decide (r.1 ∈ chosen))) q.1).map
          (fun m => m q.2)
        = (lookupCand s.candidates q.1).map (fun m => m q.2) := by
    intro q hq
    have hqch : q.1 ∈ chosen := by
      simpa using (List.mem_filter.mp hq).2
    rw [lookupCand_filter _ _ _ hqch]
  rw [traverseOpt_congr _ _ _ hcongr]
  have key := routeFixedSum chosen s.candidates inputs hnd
  rw [hlen, Nat.min_self] at key
  cases hopt : traverseOpt
      (fun q => (lookupCand s.candidates q.1).map (fun m => m q.2))
      (((s.candidates.map Prod.fst).zip inputs).filter
        (fun q => decide (q.1 ∈ chosen))) with
  | none => rw [hopt] at key; simp at key
  | some outs =>
    rw [hopt] at key
    have hsum : outs.sum = ∑ i ∈ Finset.range s.candidates.length,
        (if (s.candidates.map Prod.fst).getD i "" ∈ chosen then
          applyNth s.candidates i (inputs.getD i default) else 0) := by
      simpa using key
    simp [hsum]

/-- Witness for C3: `exRoute3` fixed to `["a", "c"]` on inputs `[10, 20, 30]`. -/
theorem C3_witness :
    exRoute3.is_fixed = false
    ∧ (exRoute3.candidates.map Prod.fst).Nodup
    ∧ (∀ c ∈ ["a", "c"], c ∈ exRoute3.candidates.map Prod.fst)
    ∧ [(10 : ℚ), 20, 30].length = exRoute3.candidates.length
    ∧ ((exRoute3.fix_chosen ["a", "c"]).1).forward_fixed [(10 : ℚ), 20, 30]
        = Except.ok (∑ i ∈ Finset.range exRoute3.candidates.length,
            if (exRoute3.candidates.map Prod.fst).getD i "" ∈ ["a", "c"] then
              applyNth exRoute3.candidates i ([(10 : ℚ), 20, 30].getD i default)
            else 0) :=
  ⟨rfl, by decide, by decide, by decide,
   C3_forward_fixed_positional_sum exRoute3 ["a", "c"] [10, 20, 30] rfl
     (by decide) (by decide) (by decide)⟩

/-! ### C7: `DiffChoiceRoute.sample_choice` is descending top-k -/

lemma insertDesc_perm (p : List ℚ) (i : Nat) :
    ∀ l, List.Perm (insertDesc p i l) (i :: l) := by
  intro l
  induction l with
  | nil => exact List.Perm.refl _
  | cons j js ih =>
    unfold insertDesc
    by_cases h : p.getD j 0 < p.getD i 0
    · rw [if_pos h]
    · rw [if_neg h]
      exact (List.Perm.cons j ih).trans (List.Perm.swap i j js)

lemma foldl_insertDesc_perm (p : List ℚ) :
    ∀ (l : List Nat) (acc : List Nat),
      List.Perm (l.foldl (fun a i => insertDesc p i a) acc) (l ++ acc) := by
  intro l
  induction l with
  | nil => intro acc; simp
  | cons i l ih =>
    intro acc
    have h1 : (i :: l).foldl (fun a i => insertDesc p i a) acc
        = l.foldl (fun a i => insertDesc p i a) (insertDesc p i acc) := rfl
    rw [h1]
    refine (ih _).trans ?_
    refine (List.Perm.append_left l (insertDesc_perm p i acc)).trans ?_
    exact List.perm_middle

lemma argsortDesc_perm (p : List ℚ) :
    List.Perm (argsortDesc p) (List.range p.length) := by
  have h := foldl_insertDesc_perm p (List.range p.length) []
  simpa [argsortDesc] using h

lemma argsortDesc_length (p : List ℚ) : (argsortDesc p).length = p.length :=
  (argsortDesc_perm p).length_eq.trans (List.length_range _)

lemma argsortDesc_nodup (p : List ℚ) : (argsortDesc p).Nodup :=
  (argsortDesc_perm p).nodup_iff.mpr (List.nodup_range _)

lemma insertDesc_pairwise (p : List ℚ) (i : Nat) :
    ∀ l, l.Pairwise (fun a b => p.getD b 0 ≤ p.getD a 0) →
      (insertDesc p i l).Pairwise (fun a b => p.getD b 0 ≤ p.getD a 0) := by
  intro l
  induction l with
  | nil => intro _; simp [insertDesc]
  | cons j js ih =>
    intro hp
    obtain ⟨hj, hjs⟩ := List.pairwise_cons.mp hp
    unfold insertDesc
    by_cases h : p.getD j 0 < p.getD i 0
    · rw [if_pos h]
      refine List.pairwise_cons.mpr ⟨?_, hp⟩
      intro b hb
      rcases List.mem_cons.mp hb with rfl | hb'
      · exact le_of_lt h
      · exact le_trans (hj b hb') (le_of_lt h)
    · rw [if_neg h]
      refine List.pairwise_cons.mpr ⟨?_, ih hjs⟩
      intro b hb
      have hbmem : b ∈ i :: js := (insertDesc_perm p i js).mem_iff.mp hb
      rcases List.mem_cons.mp hbmem with rfl | hb'
      · exact not_lt.mp h
      · exact hj b hb'

lemma foldl_insertDesc_pairwise (p : List ℚ) :
    ∀ (l : List Nat) (acc : List Nat),
      acc.Pairwise (fun a b => p.getD b 0 ≤ p.getD a 0) →
      (l.foldl (fun a i => insertDesc p i a) acc).Pairwise
        (fun a b => p.getD b 0 ≤ p.getD a 0) := by
  intro l
  induction l with
  | nil => intro acc h; simpa using h
  | cons i l ih => intro acc h; exact ih _ (insertDesc_pairwise p i acc h)

lemma argsortDesc_pairwise (p : List ℚ) :
    (argsortDesc p).Pairwise (fun a b => p.getD b 0 ≤ p.getD a 0) :=
  foldl_insertDesc_pairwise p _ [] (by simp)

lemma argsortDesc_mem_lt (p : List ℚ) {i : Nat} (h : i ∈ argsortDesc p) :
    i < p.length :=
  List.mem_range.mp ((argsortDesc_perm p).mem_iff.mp h)

lemma argsortDesc_pairwise_strict (p : List ℚ) (hpnd : p.Nodup) :
    (argsortDesc p).Pairwise (fun a b => p.getD b 0 < p.getD a 0) := by
  have h3 := (argsortDesc_pairwise p).and (argsortDesc_nodup p)
  refine h3.imp_of_mem ?_
  intro a b ha hb hab
  have hal : a < p.length := argsortDesc_mem_lt p ha
  have hbl : b < p.length := argsortDesc_mem_lt p hb
  refine lt_of_le_of_ne hab.1 ?_
  intro heq
  apply hab.2
  have hga : p.getD a 0 = p.get ⟨a, hal⟩ := by
    simp [List.getD_eq_getElem?_getD, List.getElem?_eq_getElem hal]
  have hgb : p.getD b 0 = p.get ⟨b, hbl⟩ := by
    simp [List.getD_eq_getElem?_getD, List.getElem?_eq_getElem hbl]
  have hget : p.get ⟨b, hbl⟩ = p.get ⟨a, hal⟩ := by rw [← hga, ← hgb]; exact heq
  have := (List.Nodup.get_inj_iff hpnd).mp hget
  exact congrArg Fin.val this.symm

/-- Claim C7: for an unfixed `DiffChoiceRoute` with a parameter of the
candidate-set length (pairwise-distinct values), `sample_choice` returns the
names at a list of `min num_chosen K` indices sorted by strictly decreasing
parameter value, and every selected index carries a strictly larger value than
every non-selected index — i.e. the top `num_chosen` candidates by parameter
value in descending order. -/
theorem C7_sample_choice_topk {X : Type} (s : RouteState X) (p : List ℚ)
    (_hfix : s.is_fixed = false)
    (hlen : p.length = s.candidates.length)
    (hpnd : p.Nodup) :
    ∃ idxs : List Nat,
      s.sample_choice p
        = idxs.map (fun i => (s.candidates.map Prod.fst).getD i "")
      ∧ idxs.length = min s.num_chosen s.candidates.length
      ∧ (∀ i ∈ idxs, i < s.candidates.length)
      ∧ idxs.Pairwise (fun i j => p.getD j 0 < p.getD i 0)
      ∧ (∀ i ∈ idxs, ∀ j, j < s.candidates.length → j ∉ idxs →
          p.getD j 0 < p.getD i 0) := by
  refine ⟨(argsortDesc p).take s.num_chosen, rfl, ?_, ?_, ?_, ?_⟩
  · rw [List.length_take, argsortDesc_length, hlen]
  · intro i hi
    have h1 : i ∈ argsortDesc p := List.mem_of_mem_take hi
    rw [← hlen]
    exact argsortDesc_mem_lt p h1
  · exact (argsortDesc_pairwise_strict p hpnd).sublist (List.take_sublist _ _)
  · intro i hi j hjl hjn
    have hjm : j ∈ argsortDesc p :=
      (argsortDesc_perm p).mem_iff.mpr (List.mem_range.mpr (hlen ▸ hjl))
    have hjd : j ∈ (argsortDesc p).drop s.num_chosen := by
      conv at hjm => rw [← List.take_append_drop s.num_chosen (argsortDesc p)]
      rcases List.mem_append.mp hjm with h1 | h1
      · exact absurd h1 hjn
      · exact h1
    have hpw := argsortDesc_pairwise_strict p hpnd
    rw [← List.take_append_drop s.num_chosen (argsortDesc p)] at hpw
    exact (List.pairwise_append.mp hpw).2.2 i hi j hjd

/-- Witness for C7: the spec's example `[0.1, 0.9, 0.5]` over candidates
`[a, b, c]` with `num_chosen = 2` yields `["b", "c"]`; also checks the
constructor default `num_chosen = 2`. -/
theorem C7_witness :
    exRoute3.is_fixed = false
    ∧ [mkRat 1 10, mkRat 9 10, mkRat 1 2].length = exRoute3.candidates.length
    ∧ ([mkRat 1 10, mkRat 9 10, mkRat 1 2]).Nodup
    ∧ exRoute3.num_chosen = 2
    ∧ exRoute3.sample_choice [mkRat 1 10, mkRat 9 10, mkRat 1 2] = ["b", "c"]
    ∧ (mkDiffChoiceRouteDefault exRoute3.candidates).map
        (fun r => r.num_chosen) = Except.ok 2
    ∧ (∃ idxs : List Nat,
        exRoute3.sample_choice [mkRat 1 10, mkRat 9 10, mkRat 1 2]
          = idxs.map (fun i => (exRoute3.candidates.map Prod.fst).getD i "")
        ∧ idxs.length = min exRoute3.num_chosen exRoute3.candidates.length
        ∧ (∀ i ∈ idxs, i < exRoute3.candidates.length)
        ∧ idxs.Pairwise
            (fun i j => [mkRat 1 10, mkRat 9 10, mkRat 1 2].getD j 0
              < [mkRat 1 10, mkRat 9 10, mkRat 1 2].getD i 0)
        ∧ (∀ i ∈ idxs, ∀ j, j < exRoute3.candidates.length → j ∉ idxs →
            [mkRat 1 10, mkRat 9 10, mkRat 1 2].getD j 0
              < [mkRat 1 10, mkRat 9 10, mkRat 1 2].getD i 0)) :=
  ⟨rfl, by decide, by decide, rfl, by decide, rfl,
   C7_sample_choice_topk exRoute3 [mkRat 1 10, mkRat 9 10, mkRat 1 2] rfl (by decide) (by decide)⟩

/-! ### C10: `_build_ops` merges `module_kwargs` into the caller's configs -/

lemma updEntry_fst {V : Type} (kw : List (String × V)) (q : String × V) :
    (match kw.find? (fun (r : String × V) => r.1 == q.1) with
     | some r => (q.1, r.2)
     | none => q).1 = q.1 := by
  cases List.find? (fun (r : String × V) => r.1 == q.1) kw <;> rfl

lemma find?_map_keyfst {V : Type} (g : String × V → String × V)
    (hg : ∀ q, (g q).1 = q.1) (k : String) :
    ∀ d : List (String × V),
      (d.map g).find? (fun q => q.1 == k)
        = (d.find? (fun q => q.1 == k)).map g := by
  intro d
  induction d with
  | nil => rfl
  | cons a d ih =>
    by_cases h : (a.1 == k) = true
    · have h2 : ((g a).1 == k) = true := by rw [hg a]; exact h
      rw [List.map_cons,
        @List.find?_cons_of_pos _ (fun q => q.1 == k) (g a) (List.map g d) h2,
        @List.find?_cons_of_pos _ (fun q => q.1 == k) a d h]
      rfl
    · have hf : (a.1 == k) = false := by simpa using h
      have h2 : ((g a).1 == k) = false := by rw [hg a]; exact hf
      rw [List.map_cons, List.find?_cons_of_neg _ (by simp [h2]),
        List.find?_cons_of_neg _ (by simp [hf])]
      exact ih

lemma find?_append_some {α : Type} (p : α → Bool) (l2 : List α) :
    ∀ (l1 : List α) (a : α), l1.find? p = some a → (l1 ++ l2).find? p = some a := by
  intro l1
  induction l1 with
  | nil => intro a h; exact absurd h (by simp)
  | cons b l ih =>
    intro a h
    by_cases hb : p b = true
    · rw [List.find?_cons_of_pos _ hb] at h
      rw [List.cons_append, List.find?_cons_of_pos _ hb]
      exact h
    · rw [List.find?_cons_of_neg _ (by simpa using hb)] at h
      rw [List.cons_append, List.find?_cons_of_neg _ (by simpa using hb)]
      exact ih a h

lemma find?_append_none {α : Type} (p : α → Bool) (l2 : List α) :
    ∀ l1 : List α, l1.find? p = none → (l1 ++ l2).find? p = l2.find? p := by
  intro l1
  induction l1 with
  | nil => intro _; rfl
  | cons b l ih =>
    intro h
    by_cases hb : p b = true
    · rw [List.find?_cons_of_pos _ hb] at h
      exact absurd h (by simp)
    · rw [List.find?_cons_of_neg _ (by simpa using hb)] at h
      rw [List.cons_append, List.find?_cons_of_neg _ (by simpa using hb)]
      exact ih h

lemma lookupV_dictUpdate {V : Type} (d kw : List (String × V)) (k : String) :
    lookupV (dictUpdate d kw) k
      = match lookupV kw k with
        | some v => some v
        | none => lookupV d k := by
  unfold dictUpdate lookupV
  cases hd : d.find? (fun q => q.1 == k) with
  | some q0 =>
    have hq0' : q0.1 = k := by simpa using List.find?_some hd
    have h1 : (d.map (fun q => match kw.find? (fun r => r.1 == q.1) with
        | some r => (q.1, r.2)
        | none => q)).find? (fun q => q.1 == k)
        = some (match kw.find? (fun r => r.1 == q0.1) with
            | some r => (q0.1, r.2)
            | none => q0) := by
      rw [find?_map_keyfst _ (updEntry_fst kw) k d, hd]
      rfl
    rw [find?_append_some _ _ _ _ h1]
    rw [hq0']
    cases hkw : kw.find? (fun r => r.1 == k) with
    | some r => simp [hkw]
    | none => simp [hkw, hq0']
  | none =>
    have h1 : (d.map (fun q => match kw.find? (fun r => r.1 == q.1) with
        | some r => (q.1, r.2)
        | none => q)).find? (fun q => q.1 == k) = none := by
      rw [find?_map_keyfst _ (updEntry_fst kw) k d, hd]
      rfl
    rw [find?_append_none _ _ _ h1]
    have himp : ∀ r : String × V, (r.1 == k) = true →
        (!(d.any (fun q => q.1 == r.1))) = true := by
      intro r hr
      have hrk : r.1 = k := by simpa using hr
      rw [hrk]
      have hall := List.find?_eq_none.mp hd
      have hany : d.any (fun q => q.1 == k) = false := by
        rw [List.any_eq_false]
        intro q hq
        simpa using hall q hq
      rw [hany]
      rfl
    rw [find?_filter_of_imp kw _ _ himp]
    cases hkw : kw.find? (fun r => r.1 == k) <;> simp [hkw]

lemma buildOps_ok {V M : Type} (build : List (String × V) → M)
    (mk : Option (List (String × V))) :
    ∀ (cands : List (String × List (String × V))) (seen : List String),
      (cands.map Prod.fst).Nodup →
      (∀ n ∈ cands.map Prod.fst, n ∉ seen) →
      buildOps build mk cands seen
        = Except.ok
            (cands.map (fun q => (q.1, build
              (match mk with | none => q.2 | some kw => dictUpdate q.2 kw))),
             cands.map (fun q => (q.1,
              match mk with | none => q.2 | some kw => dictUpdate q.2 kw))) := by
  intro cands
  induction cands with
  | nil => intro seen _ _; rfl
  | cons a l ih =>
    intro seen hnd hdis
    obtain ⟨hna, hndl⟩ : a.1 ∉ l.map Prod.fst ∧ (l.map Prod.fst).Nodup := by
      simpa [List.nodup_cons] using hnd
    have hseen : a.1 ∉ seen := hdis a.1 (by simp)
    have hdis' : ∀ n ∈ l.map Prod.fst, n ∉ a.1 :: seen := by
      intro n hn
      simp only [List.mem_cons, not_or]
      exact ⟨fun hcontra => hna (hcontra ▸ hn), hdis n (by simp [hn])⟩
    obtain ⟨name, cfg⟩ := a
    simp only [buildOps]
    rw [if_neg hseen, ih (name :: seen) hndl hdis']
    rfl

/-- Claim C10: constructing the candidate ops with a non-`None`
`module_kwargs` merges the shared overrides into every candidate's config as a
side effect observable through the caller's retained references (the returned
config list), overwriting equal keys: after the merge, looking up any key of
`module_kwargs` yields the override value and any other key keeps the
candidate's own value. -/
theorem C10_build_ops_mutates_configs {V M : Type}
    (build : List (String × V) → M) (kw : List (String × V))
    (cands : List (String × List (String × V)))
    (hnd : (cands.map Prod.fst).Nodup) :
    buildOps build (some kw) cands []
      = Except.ok (cands.map (fun q => (q.1, build (dictUpdate q.2 kw))),
                   cands.map (fun q => (q.1, dictUpdate q.2 kw)))
    ∧ ∀ (cfg : List (String × V)) (k : String),
        lookupV (dictUpdate cfg kw) k
          = match lookupV kw k with
            | some v => some v
            | none => lookupV cfg k := by
  constructor
  · have h := buildOps_ok build (some kw) cands [] hnd (by simp)
    simpa using h
  · intro cfg k
    exact lookupV_dictUpdate cfg kw k

/-- Witness for C10: two candidate configs, one shared override dict. -/
theorem C10_witness :
    (([("p", [("k1", 1), ("k2", 2)]),
       ("q", [("k2", 5)])].map Prod.fst).Nodup
    ∧ buildOps (fun cfg => cfg.length) (some [("k2", 9), ("k3", 7)])
        [("p", [("k1", 1), ("k2", 2)]), ("q", [("k2", 5)])] []
      = Except.ok
          ([("p", [("k1", 1), ("k2", 2)]),
            ("q", [("k2", 5)])].map
              (fun q => (q.1, (dictUpdate q.2 [("k2", 9), ("k3", 7)]).length)),
           [("p", [("k1", 1), ("k2", 2)]),
            ("q", [("k2", 5)])].map
              (fun q => (q.1, dictUpdate q.2 [("k2", 9), ("k3", 7)])))
    ∧ lookupV (dictUpdate [("k1", 1), ("k2", 2)] [("k2", 9), ("k3", 7)]) "k2"
        = some 9
    ∧ lookupV (dictUpdate [("k1", 1), ("k2", 2)] [("k2", 9), ("k3", 7)]) "k1"
        = some 1
    ∧ lookupV (dictUpdate [("k1", 1), ("k2", 2)] [("k2", 9), ("k3", 7)]) "k3"
        = some 7) := by
  have h := C10_build_ops_mutates_configs (fun cfg => cfg.length)
    [("k2", 9), ("k3", 7)]
    [("p", [("k1", 1), ("k2", 2)]), ("q", [("k2", 5)])] (by decide)
  exact ⟨by decide, h.1, by decide, by decide, by decide⟩
